import Mathlib

/-!
Verification development for the docx page-group reflow scripts
(`script.py` and `visual_approach.py`).

The Python sources are embedded shallowly:

* a block-level XML element (`<w:p>` paragraph, table, ...) is modelled by
  `Elem`: its tag name, the concatenated text of its `w:t` descendants
  (which is exactly what `_get_text_content` returns), and a numeric `uid`
  modelling Python object identity (Python `list.index` and `body.remove`
  compare `xml.etree` elements by identity);
* floating point arithmetic over page geometry is modelled by `ℚ`
  (the scripts' constants `727.2`, `447.9`, `11.0`, ... are decimal and the
  claims under verification do not hinge on binary rounding);
* Python regular-expression operations used by the sources are translated
  into explicit character-list scanners with the same matching semantics
  (leftmost match, alternatives in order, greedy quantifiers);
* the PDF ground truth is a list of `Page` records: a page number and the
  page's concatenated text, exactly the fields `detect_split_groups` reads.

Snake-case names follow the Python sources.
-/

/-! ## Character and string utilities -/

/-- Python `text.strip() == ''`: true iff every character is whitespace. -/
def strippedEmpty (s : String) : Bool :=
  s.data.all Char.isWhitespace

/-- Python `str.strip()` on a character list: drop leading and trailing
whitespace. -/
def pyStrip (l : List Char) : List Char :=
  ((l.dropWhile Char.isWhitespace).reverse.dropWhile Char.isWhitespace).reverse

/-- Python `str.lower()` (ASCII case folding, as used on the ASCII inputs
of these scripts). -/
def pyLower (l : List Char) : List Char :=
  l.map Char.toLower

/-- Python `re.sub(r'\s+', ' ', s)`: collapse every maximal run of
whitespace characters into a single space.  The scan consumes at least one
character per step, so `fuel` initialised to the list length (see
`collapseWsAux`) never runs out; structural recursion on `fuel` keeps the
function kernel-reducible. -/
def collapseWsFuel : Nat → List Char → List Char
  | _, [] => []
  | 0, l => l
  | fuel + 1, c :: rest =>
    if c.isWhitespace then ' ' :: collapseWsFuel fuel (rest.dropWhile Char.isWhitespace)
    else c :: collapseWsFuel fuel rest

/-- `re.sub(r'\s+', ' ', s)` on a character list. -/
def collapseWsAux (l : List Char) : List Char :=
  collapseWsFuel l.length l

/-- The normalisation `re.sub(r'\s+', ' ', s.strip().lower())` used by the
split detector on both element texts and page texts. -/
def normText (s : String) : String :=
  String.mk (collapseWsAux (pyLower (pyStrip s.data)))

/-- Python substring test `needle in hay` on character lists. -/
def isInfixCh (needle : List Char) : List Char → Bool
  | [] => needle.isEmpty
  | hay@(_ :: t) => needle.isPrefixOf hay || isInfixCh needle t

/-- Python substring test `needle in hay` on strings. -/
def inStr (needle hay : String) : Bool :=
  isInfixCh needle.data hay.data

/-- Python `str.split()` (no separator): split on whitespace runs,
discarding empty pieces.  `cur` accumulates the current word reversed. -/
def pyWordsAux (cur : List Char) : List Char → List (List Char)
  | [] => if cur.isEmpty then [] else [cur.reverse]
  | c :: rest =>
    if c.isWhitespace then
      if cur.isEmpty then pyWordsAux [] rest
      else cur.reverse :: pyWordsAux [] rest
    else pyWordsAux (c :: cur) rest

/-- Python `str.split()` on a character list. -/
def pyWords (l : List Char) : List (List Char) :=
  pyWordsAux [] l

/-- Python `' '.join(words)`. -/
def joinWords (ws : List (List Char)) : List Char :=
  (ws.intersperse [' ']).flatten

/-! ## Sentence counting (`_count_sentences`, identical in both scripts) -/

/-- The configured abbreviation list, in source order. -/
def abbreviations : List String :=
  [ "PT", "CV", "UD", "Tbk", "Ltd", "Inc", "Corp",
    "Dr", "dr", "Prof", "Ir", "Drs", "Dra", "ST", "SE", "SH", "MM",
    "M.Si", "M.Kom", "M.Pd", "S.Kom", "S.E", "S.H",
    "Hj", "H", "KH",
    "No", "Nomor", "Tel", "Telp", "Fax", "Hp",
    "Jl", "Jln", "Gg",
    "Kec", "Kel", "Kab", "Prov", "RT", "RW",
    "Jan", "Feb", "Mar", "Apr", "Mei", "Jun", "Jul", "Agt", "Sep", "Okt",
    "Nov", "Des" ]

/-- A regex word character (`\w`) for the ASCII inputs at hand. -/
def wordChar (c : Char) : Bool :=
  c.isAlphanum || c == '_'

/-- Case-insensitive prefix test (`re.IGNORECASE` alternative matching). -/
def ciPrefix : List Char → List Char → Bool
  | [], _ => true
  | _ :: _, [] => false
  | a :: as, c :: cs => (a.toLower == c.toLower) && ciPrefix as cs

/-- Try the alternatives of `\b(abbr1|abbr2|...)\.` at the current
position, in source order (regex alternation tries alternatives left to
right); an alternative succeeds when it is a case-insensitive prefix
followed by a literal period.  Returns the matched alternative's length. -/
def tryAbbrev (l : List Char) : List String → Option Nat
  | [] => none
  | abbr :: rest =>
    if ciPrefix abbr.data l then
      match l.drop abbr.data.length with
      | '.' :: _ => some abbr.data.length
      | _ => tryAbbrev l rest
    else tryAbbrev l rest

/-- `re.sub(abbrev_pattern, r'\1<ABBREV>', text, flags=re.IGNORECASE)`:
scan left to right; at each word boundary (`\b`) try the abbreviation
alternatives; on a match emit the matched characters (group 1, original
case) followed by `<ABBREV>`, dropping the period, and continue after the
match (the character preceding the resume position in the original text is
the consumed period). -/
def abbrevSubFuel : Nat → Option Char → List Char → List Char
  | _, _, [] => []
  | 0, _, l => l
  | fuel + 1, prev, c :: rest =>
    let prevW := match prev with
      | none => false
      | some p => wordChar p
    if prevW != wordChar c then
      match tryAbbrev (c :: rest) abbreviations with
      | some n =>
        (c :: rest).take n ++ "<ABBREV>".data ++
          abbrevSubFuel fuel (some '.') ((c :: rest).drop (n + 1))
      | none => c :: abbrevSubFuel fuel (some c) rest
    else c :: abbrevSubFuel fuel (some c) rest

/-- The abbreviation substitution pass, started at the beginning of the
text (no preceding character); every step consumes at least one character,
so fuel equal to the text length suffices. -/
def abbrevSub (l : List Char) : List Char :=
  abbrevSubFuel l.length none l

/-- A sentence-ending punctuation character (`[.!?]`). -/
def isSentEnd (c : Char) : Bool :=
  c == '.' || c == '!' || c == '?'

/-- Uppercase ASCII letter test (`[A-Z]`). -/
def headIsUpper : List Char → Bool
  | c :: _ => decide ('A' ≤ c ∧ c ≤ 'Z')
  | [] => false

/-- Try to match `[.!?]+(?:\s+[A-Z]|$)` at the head of `l`; return the
number of characters consumed.  `[.!?]+` is greedy; a shorter run can
never satisfy the tail (the next character would be another `[.!?]`), so
only the maximal run is tried.  `\s+[A-Z]` likewise only succeeds with the
maximal whitespace run.  `$` matches at end of input or just before a
final newline (Python `re` semantics without `MULTILINE`). -/
def tryMatchLen (l : List Char) : Option Nat :=
  let k := (l.takeWhile isSentEnd).length
  if k = 0 then none
  else
    let rest := l.drop k
    let w := (rest.takeWhile Char.isWhitespace).length
    if 0 < w ∧ headIsUpper (rest.drop w) = true then some (k + w + 1)
    else if rest = [] ∨ rest = ['\n'] then some k
    else none

/-- `re.findall(sentence_pattern, text)` length: scan left to right, count
non-overlapping matches, resuming after each match; every match and every
failed position consume at least one character, so fuel equal to the text
length suffices. -/
def countSentFuel : Nat → List Char → Nat
  | _, [] => 0
  | 0, _ => 0
  | fuel + 1, l@(_ :: rest) =>
    match tryMatchLen l with
    | some n => 1 + countSentFuel fuel (l.drop n)
    | none => countSentFuel fuel rest

/-- Number of `[.!?]+(?:\s+[A-Z]|$)` matches in the text. -/
def countSentAux (l : List Char) : Nat :=
  countSentFuel l.length l

/-- `_count_sentences` from the sources: replace configured abbreviations
followed by a period with a placeholder, count sentence-ending matches,
and force the count to 1 for non-blank text with no matches. -/
def _count_sentences (text : String) : Nat :=
  let text_processed := abbrevSub text.data
  let sentence_count := countSentAux text_processed
  if sentence_count = 0 ∧ strippedEmpty text = false then 1 else sentence_count

/-! ## Document model, height estimation and page assignment (`script.py`) -/

/-- One block-level element of the document body.  `tag` is the XML tag
name (the body holds `w:p` paragraphs plus non-paragraph nodes such as
tables); `text` is the concatenation of the element's `w:t` text nodes,
i.e. the value `_get_text_content` returns; `uid` models Python object
identity — `xml.etree` elements compare by identity, and the scripts look
elements up with `list.index` and remove them with `body.remove`, both of
which use that identity. -/
structure Elem where
  uid : Nat
  tag : String
  text : String
deriving DecidableEq

instance : Inhabited Elem := ⟨⟨0, "", ""⟩⟩

/-- A4 content width in points (`CONTENT_WIDTH`). -/
def CONTENT_WIDTH : ℚ := 447.9

/-- A4 page content height in points (`PAGE_CONTENT_HEIGHT`). -/
def PAGE_CONTENT_HEIGHT : ℚ := 727.2

/-- `_estimate_element_height`: one line-height for blank text, otherwise
`max(1, len(text) / chars_per_line)` lines at 1.5 line spacing plus a
6-point paragraph padding.  Python float arithmetic is modelled by `ℚ`. -/
def _estimate_element_height (element : Elem) : ℚ :=
  let text := element.text
  let font_size : ℚ := 11
  let line_height : ℚ := font_size * 1.5
  if strippedEmpty text then line_height
  else
    let char_width : ℚ := font_size * 0.6
    let chars_per_line : ℚ := CONTENT_WIDTH / char_width
    let num_lines : ℚ := max 1 ((text.length : ℚ) / chars_per_line)
    let height : ℚ := num_lines * line_height
    height + 6

/-- The linear scan of `_calculate_page_positions`: walk the elements with
a running `cumulative_height` and `current_page`; an element that would
overflow the page starts the next page with the cumulative height reset to
its own height. -/
def calcPagesAux (cumulative_height : ℚ) (current_page : Nat) : List Elem → List Nat
  | [] => []
  | element :: rest =>
    let elem_height := _estimate_element_height element
    if PAGE_CONTENT_HEIGHT < cumulative_height + elem_height then
      (current_page + 1) :: calcPagesAux elem_height (current_page + 1) rest
    else
      current_page :: calcPagesAux (cumulative_height + elem_height) current_page rest

/-- `_calculate_page_positions`: page number per element position (the
Python dict `{i: page}` over `i = 0..n-1`, represented positionally). -/
def _calculate_page_positions (all_elements : List Elem) : List Nat :=
  calcPagesAux 0 1 all_elements

/-! ## Reflow engine (`script.py`, module-level loop) -/

/-- `_create_empty_paragraph()`: a fresh empty `w:p` paragraph; the `uid`
models the new object's identity. -/
def _create_empty_paragraph (uid : Nat) : Elem :=
  ⟨uid, "w:p", ""⟩

/-- `_insert_line_break_after`: insert `new_elem` after position `index`;
out-of-range indices (negative, or past the end) leave the list
unchanged, exactly like the early `return` in the source. -/
def _insert_line_break_after (all_elements : List Elem) (index : Int) (new_elem : Elem) :
    List Elem :=
  if 0 ≤ index ∧ index < all_elements.length then
    all_elements.take (index.toNat + 1) ++ new_elem :: all_elements.drop (index.toNat + 1)
  else all_elements

/-- Python `all_elements.index(elem)` under a `try/except ValueError`:
first position holding the element's identity, if any. -/
def listIndexOf (all_elements : List Elem) (target : Elem) : Option Nat :=
  match all_elements with
  | [] => none
  | e :: rest =>
    if e.uid = target.uid then some 0
    else (listIndexOf rest target).map (· + 1)

/-- The `group_indices` recomputation: index of each group member in the
current element list, members no longer present skipped. -/
def groupIndices (all_elements : List Elem) (group : List Elem) : List Nat :=
  group.filterMap (listIndexOf all_elements)

/-- Python `min` over a non-empty list of naturals (`min(group_indices)`);
0 for the empty list, which the caller has already excluded. -/
def listMin : List Nat → Nat
  | [] => 0
  | [x] => x
  | x :: rest => Nat.min x (listMin rest)

/-- Number of distinct pages the group's members currently sit on:
`len(set(pages))` for `pages = [element_pages.get(idx, 1) for idx in
group_indices]`. -/
def splitDegree (all_elements : List Elem) (group : List Elem) : Nat :=
  let element_pages := _calculate_page_positions all_elements
  let group_indices := groupIndices all_elements group
  ((group_indices.map fun idx => element_pages.getD idx 1).dedup).length

/-- The inner `while line_breaks_added < max_attempts` loop of the reflow
engine, for one group: insert an empty paragraph after
`first_idx - 1 + line_breaks_added`, recompute pages and group indices,
stop as soon as the group occupies a single page.  `fuel` is the number of
iterations still allowed (`max_attempts - line_breaks_added`); `counter`
supplies fresh identities for the inserted paragraphs. -/
def reflowAttempts (fuel : Nat) (all_elements : List Elem) (group : List Elem)
    (first_idx line_breaks_added counter : Nat) : List Elem × Nat :=
  match fuel with
  | 0 => (all_elements, line_breaks_added)
  | fuel' + 1 =>
    let insert_after_idx : Int := (first_idx : Int) - 1 + (line_breaks_added : Int)
    let elems' := _insert_line_break_after all_elements insert_after_idx
      (_create_empty_paragraph counter)
    let added' := line_breaks_added + 1
    if splitDegree elems' group = 1 then (elems', added')
    else reflowAttempts fuel' elems' group first_idx added' (counter + 1)

/-- Processing of one group by the module-level loop of `script.py`
(lines 413–471): recompute the group's indices; if the group spans more
than one page and does not start at position 0, run the corrective loop
with `max_attempts = 10`; otherwise leave the document unchanged.  Returns
the updated element list and `line_breaks_added` for this group. -/
def processGroup (all_elements : List Elem) (group : List Elem) (counter : Nat) :
    List Elem × Nat :=
  if groupIndices all_elements group = [] then (all_elements, 0)
  else if 1 < splitDegree all_elements group then
    if 0 < listMin (groupIndices all_elements group) then
      reflowAttempts 10 all_elements group (listMin (groupIndices all_elements group)) 0 counter
    else (all_elements, 0)
  else (all_elements, 0)

/-- The document state after the corrective loop's first `k` insertions:
insertion number `j` (0-based) goes after index `first_idx - 1 + j` and
carries the fresh identity `counter + j`. -/
def docAfterBreaks (all_elements : List Elem) (first_idx counter : Nat) : Nat → List Elem
  | 0 => all_elements
  | k + 1 =>
    _insert_line_break_after (docAfterBreaks all_elements first_idx counter k)
      ((first_idx : Int) - 1 + (k : Int)) (_create_empty_paragraph (counter + k))

/-! ## Blank-paragraph normalisation (`script.py`) -/

/-- The run condition of `_cleanup_excess_empty_paragraphs`'s scan: a
paragraph element (`tag.endswith('p')`) whose text is blank. -/
def blankPara (e : Elem) : Bool :=
  e.tag.endsWith "p" && strippedEmpty e.text

/-- `_cleanup_excess_empty_paragraphs`: scan forward from
`current_index + 1` over consecutive blank paragraphs, keep the first and
remove the rest; the scan stops at the first non-paragraph element or
non-blank paragraph.  Returns the updated element list (the source
mutates `body`/`all_elements` in place and returns the removal count). -/
def _cleanup_excess_empty_paragraphs (all_elements : List Elem) (current_index : Nat) :
    List Elem :=
  all_elements.take (current_index + 1) ++
    (((all_elements.drop (current_index + 1)).takeWhile blankPara).take 1 ++
      (all_elements.drop (current_index + 1)).dropWhile blankPara)

/-! ## Group extraction (`visual_approach.py`, Phase 1) -/

/-- `GROUP_PATTERNS`: the named tag sequences that must stay on one page,
in source (dict insertion) order. -/
def GROUP_PATTERNS : List (String × List String) :=
  [ ("heading+paragraph", ["heading", "paragraph"]),
    ("paragraph", ["paragraph"]),
    ("heading+list", ["heading", "list"]) ]

/-- `_match_pattern`: strict window matching.  A window of element types
(`Optional[str]` values from `_get_element_type` — `None` models an
element that is neither heading, paragraph nor list item) matches a
pattern iff the two lists are equal elementwise; `None` entries are not
filtered out.  Patterns are tried in catalog order; the source's global
`GROUP_PATTERNS` is passed explicitly. -/
def _match_pattern (patterns : List (String × List String))
    (window_types : List (Option String)) : Bool × Option String :=
  match patterns with
  | [] => (false, none)
  | (pattern_name, pattern_types) :: rest =>
    if window_types = pattern_types.map some then (true, some pattern_name)
    else _match_pattern rest window_types

/-- `L = max(len(pattern) for pattern in GROUP_PATTERNS.values())`
(0 for an empty catalog, which the source never passes). -/
def maxPatternLength (patterns : List (String × List String)) : Nat :=
  (patterns.map fun p => p.2.length).foldl Nat.max 0

/-- One extracted group: pattern name, position in the output list,
window indices in the document, and the window's elements.  The element
type is abstract — the claims about extraction quantify over the
classifier. -/
structure TGroup (α : Type) where
  type : Option String
  group_index : Nat
  doc_indices : List Nat
  elements : List α
deriving DecidableEq

/-- Inner loop of `extract_groups`: try the window sizes `j+1` for `j` in
`js` (the source iterates `j` from `L-1` down to `0`), skipping windows
that overrun the document, and append a group for each match. -/
def extractAtPos {α : Type} [Inhabited α] (patterns : List (String × List String))
    (getType : α → Option String) (all_elements : List α) (i : Nat)
    (P : List (TGroup α)) : List Nat → List (TGroup α)
  | [] => P
  | j :: js =>
    if all_elements.length ≤ i + j then extractAtPos patterns getType all_elements i P js
    else
      let ks := List.range (j + 1)
      let temp_group := ks.map fun k => all_elements.getD (i + k) default
      let temp_indices := ks.map fun k => i + k
      let temp_types := temp_group.map getType
      match _match_pattern patterns temp_types with
      | (true, pattern_name) =>
        extractAtPos patterns getType all_elements i
          (P ++ [⟨pattern_name, P.length, temp_indices, temp_group⟩]) js
      | (false, _) => extractAtPos patterns getType all_elements i P js

/-- Outer loop of `extract_groups` over start positions. -/
def extractFromPos {α : Type} [Inhabited α] (patterns : List (String × List String))
    (getType : α → Option String) (all_elements : List α)
    (P : List (TGroup α)) : List Nat → List (TGroup α)
  | [] => P
  | i :: is =>
    extractFromPos patterns getType all_elements
      (extractAtPos patterns getType all_elements i P
        ((List.range (maxPatternLength patterns)).reverse)) is

/-- `extract_groups`: sliding-window extraction — for each start position
`i`, try window sizes from the longest pattern length down to 1; a window
whose type sequence strictly matches a pattern becomes a group.  A match
does not advance `i` past the window, so overlapping groups are kept. -/
def extract_groups {α : Type} [Inhabited α] (patterns : List (String × List String))
    (getType : α → Option String) (all_elements : List α) : List (TGroup α) :=
  extractFromPos patterns getType all_elements [] (List.range all_elements.length)

/-! ## Split detection (`visual_approach.py`, Phase 2) -/

/-- One page of the rendered PDF as used by the split detector:
`page_num` (numbered from 1 by `extract_pdf_data`) and the page's
concatenated text `all_text`. -/
structure Page where
  page_num : Nat
  all_text : String
deriving DecidableEq

instance : Inhabited Page := ⟨⟨0, ""⟩⟩

/-- `_find_exact_match`: first page (in list order) whose normalised text
contains the normalised element text as a substring. -/
def _find_exact_match (elem_text_normalized : String) : List Page → Option Nat
  | [] => none
  | page :: rest =>
    let page_text_normalized := normText page.all_text
    if inStr elem_text_normalized page_text_normalized then some page.page_num
    else _find_exact_match elem_text_normalized rest

/-- Inner counter of `get_overlapped_words`: number of consecutive equal
words from the heads of the two suffixes. -/
def overlapCount : List (List Char) → List (List Char) → Nat
  | a :: as, b :: bs => if a = b then overlapCount as bs + 1 else 0
  | _, _ => 0

/-- Scan over all start positions `j` in `words_B` (inner loop of
`get_overlapped_words`), keeping the first strictly longer overlap. -/
def bestOverlapB (sa : List (List Char)) :
    List (List Char) → Nat × List (List Char) → Nat × List (List Char)
  | [], acc => acc
  | sb@(_ :: tb), (m, w) =>
    let c := overlapCount sa sb
    bestOverlapB sa tb (if m < c then (c, sa.take c) else (m, w))

/-- Scan over all start positions `i` in `words_A` (outer loop of
`get_overlapped_words`). -/
def bestOverlapA (wb : List (List Char)) :
    List (List Char) → Nat × List (List Char) → Nat × List (List Char)
  | [], acc => acc
  | sa@(_ :: ta), acc => bestOverlapA wb ta (bestOverlapB sa wb acc)

/-- `get_overlapped_words`: longest run of consecutive words common to the
two sentences (both lowercased and whitespace-split); ties broken by the
first strictly greater run found, scanning `A`'s then `B`'s positions in
order. -/
def get_overlapped_words (A B : String) : List (List Char) :=
  let words_A := pyWords (pyLower A.data)
  let words_B := pyWords (pyLower B.data)
  (bestOverlapA words_B words_A (0, [])).2

/-- Loop of `_detect_partial_split` with its running state: `none` while
no first chunk has been found, `some (first_chunk, first_page_num)`
afterwards.  A later page whose overlap also exceeds the threshold
completes the split if the two chunks concatenated contain the full
normalised element text. -/
def detectPartialAux (elem_text_normalized : String) (min_word_overlap : Nat) :
    List Page → Option (List Char × Nat) → Option (List Nat)
  | [], _ => none
  | page :: rest, st =>
    let page_text_normalized := normText page.all_text
    let overlapped_words := get_overlapped_words elem_text_normalized page_text_normalized
    if min_word_overlap < overlapped_words.length then
      match st with
      | none =>
        detectPartialAux elem_text_normalized min_word_overlap rest
          (some (joinWords overlapped_words, page.page_num))
      | some (first_chunk, first_page_num) =>
        let remaining_chunk := joinWords overlapped_words
        let combined_text := first_chunk ++ ' ' :: remaining_chunk
        let normalized_combined := collapseWsAux (pyStrip combined_text)
        if isInfixCh elem_text_normalized.data normalized_combined then
          some [first_page_num, page.page_num]
        else
          detectPartialAux elem_text_normalized min_word_overlap rest st
    else detectPartialAux elem_text_normalized min_word_overlap rest st

/-- `_detect_partial_split`: detect an element split across two pages via
word overlap; returns the two page numbers, or `none`. -/
def _detect_partial_split (elem_text_normalized : String) (pages : List Page)
    (min_word_overlap : Nat := 6) : Option (List Nat) :=
  detectPartialAux elem_text_normalized min_word_overlap pages none

/-- Python truthiness of `found_page : Optional[int]`: `None` and `0` are
falsy. -/
def pyTruthyOpt : Option Nat → Bool
  | none => false
  | some n => n != 0

/-- The per-member page resolution of `detect_split_groups`: skip blank
members; otherwise record the exact-match page when truthy, falling back
to partial-split detection (extending with both pages when the result, a
list, is truthy i.e. non-empty). -/
def pages_for_group (V : List Page) (all_elements : List Elem) :
    List Nat → List Nat
  | [] => []
  | elem_idx :: rest =>
    let elem := all_elements.getD elem_idx default
    if strippedEmpty elem.text then pages_for_group V all_elements rest
    else
      let elem_text_normalized := normText elem.text
      let found_page := _find_exact_match elem_text_normalized V
      if pyTruthyOpt found_page then
        found_page.getD 0 :: pages_for_group V all_elements rest
      else
        match _detect_partial_split elem_text_normalized V with
        | some split_pages =>
          if split_pages.isEmpty then pages_for_group V all_elements rest
          else split_pages ++ pages_for_group V all_elements rest
        | none => pages_for_group V all_elements rest

/-- A group as consumed by `detect_split_groups`: its index in `P` and the
document indices of its members (the other dict fields are debug
metadata). -/
structure DGroup where
  group_index : Nat
  doc_indices : List Nat
deriving DecidableEq

/-- `detect_split_groups`: the groups whose members resolve to more than
one distinct page (the source also attaches a `split_reason` string,
omitted here as pure debug metadata). -/
def detect_split_groups (V : List Page) (P : List DGroup) (all_elements : List Elem) :
    List DGroup :=
  P.filter fun group =>
    decide (1 < (pages_for_group V all_elements group.doc_indices).dedup.length)

/-! ## Auxiliary definitions for the claim statements -/

/-- A run of `n` copies of the letter `a` — concrete text material for the
closed instances below. -/
def longText (n : Nat) : String :=
  String.mk (List.replicate n 'a')

/-- Modelled from the spec: the height formula the specification states
for a non-empty unit — `ceil(char_count / chars_per_line) * line_height +
fixed_padding` with `chars_per_line = content_width / average_char_width`,
line height `16.5` (font size 11 at 1.5 spacing), average char width
`6.6` (0.6 × font size) and padding `6`.  Written from the spec's words,
to be compared against `_estimate_element_height`. -/
def spec_ceil_height (element : Elem) : ℚ :=
  (⌈(element.text.length : ℚ) / (CONTENT_WIDTH / 6.6)⌉ : ℚ) * 16.5 + 6

/-- Modelled from the spec as amended: a blank unit costs one line-height
(16.5 points); a non-empty unit costs `max 1 (char_count / chars_per_line)`
lines — the possibly fractional quotient, floored below at one line — at
16.5 points per line, plus the 6-point padding. -/
def amended_spec_height (element : Elem) : ℚ :=
  if strippedEmpty element.text then 16.5
  else max 1 ((element.text.length : ℚ) / (CONTENT_WIDTH / 6.6)) * 16.5 + 6

/-- Concrete document for the C2 counterexample: three 1000-character
paragraphs; the third overflows to page 2, and the group of all three
starts at position 0. -/
def c2Doc : List Elem :=
  [⟨0, "w:p", longText 1000⟩, ⟨1, "w:p", longText 1000⟩, ⟨2, "w:p", longText 1000⟩]

/-- Concrete document for the C6/C2 witnesses: two 1000-character lead
paragraphs followed by a 900- and a 300-character paragraph. -/
def c6Doc : List Elem :=
  [⟨0, "w:p", longText 1000⟩, ⟨1, "w:p", longText 1000⟩,
   ⟨2, "w:p", longText 900⟩, ⟨3, "w:p", longText 300⟩]

/-- The group of the last two members of `c6Doc` — initially split across
pages 1 and 2, and unified by a single forced break. -/
def c6Group : List Elem :=
  [⟨2, "w:p", longText 900⟩, ⟨3, "w:p", longText 300⟩]

/-- A group emitted by the extractor is well-formed: its name and window
type sequence coincide with a catalog pattern, exactly and in order. -/
def validGroup {α : Type} (patterns : List (String × List String))
    (getType : α → Option String) (g : TGroup α) : Prop :=
  ∃ name ptypes, (name, ptypes) ∈ patterns ∧ g.type = some name ∧
    g.elements.map getType = ptypes.map some

/-! ### Scaled integer mirror of the page estimator

Mathlib's `ℚ` operations do not evaluate inside the kernel, so closed
instances of the page estimator cannot be settled by `decide` directly.
All heights produced by `_estimate_element_height` are rationals with
denominator dividing `89580 = 20 · 4479`; multiplying every height and the
page threshold by `89580` turns the estimator into exact natural-number
arithmetic with identical branching.  The `scaled*` definitions below are
that mirror, and `calc_pages_scaled_eq` proves the two estimators produce
the same page lists on every input. -/

/-- `_estimate_element_height` multiplied by `89580`:
`16.5 · 89580 = 1478070`, `6 · 89580 = 537480`, and
`(len / chars_per_line) · 16.5 · 89580 = 21780 · len`. -/
def scaledHeight (element : Elem) : Nat :=
  if strippedEmpty element.text then 1478070
  else max 1478070 (21780 * element.text.length) + 537480

/-- `PAGE_CONTENT_HEIGHT · 89580 = 727.2 · 89580`. -/
def SCALED_PAGE_CONTENT_HEIGHT : Nat := 65142576

/-- `calcPagesAux` over the scaled integer heights. -/
def calcPagesScaledAux (cumulative_height : Nat) (current_page : Nat) :
    List Elem → List Nat
  | [] => []
  | element :: rest =>
    let elem_height := scaledHeight element
    if SCALED_PAGE_CONTENT_HEIGHT < cumulative_height + elem_height then
      (current_page + 1) :: calcPagesScaledAux elem_height (current_page + 1) rest
    else
      current_page :: calcPagesScaledAux (cumulative_height + elem_height) current_page rest

/-- `_calculate_page_positions` over the scaled integer heights. -/
def scaledPagePositions (all_elements : List Elem) : List Nat :=
  calcPagesScaledAux 0 1 all_elements

/-- `splitDegree` over the scaled integer heights. -/
def splitDegreeScaled (all_elements : List Elem) (group : List Elem) : Nat :=
  let element_pages := scaledPagePositions all_elements
  let group_indices := groupIndices all_elements group
  ((group_indices.map fun idx => element_pages.getD idx 1).dedup).length

/-! ## General helper lemmas -/

theorem dropWhile_dropWhile {α : Type} (p : α → Bool) (l : List α) :
    (l.dropWhile p).dropWhile p = l.dropWhile p := by
  induction l with
  | nil => rfl
  | cons a t ih =>
    by_cases h : p a = true
    · rw [List.dropWhile_cons_of_pos h, ih]
    · rw [List.dropWhile_cons_of_neg h, List.dropWhile_cons_of_neg h]

theorem dedup_length_le_one (l : List Nat) (p : Nat) (h : ∀ x ∈ l, x = p) :
    l.dedup.length ≤ 1 := by
  induction l with
  | nil => simp
  | cons a t ih =>
    by_cases hat : a ∈ t
    · rw [List.dedup_cons_of_mem hat]
      exact ih fun x hx => h x (List.mem_cons_of_mem _ hx)
    · rw [List.dedup_cons_of_not_mem hat]
      have ht : t = [] := by
        cases t with
        | nil => rfl
        | cons b tb =>
          have hb : b = p := h b (by simp)
          have ha : a = p := h a (by simp)
          exact absurd (by rw [ha, ← hb]; simp : a ∈ b :: tb) hat
      subst ht
      simp

theorem getD_eq_get_of_lt (l : List Nat) (n : Nat) (h : n < l.length) :
    l.getD n 0 = l.get ⟨n, h⟩ := by
  rw [List.getD_eq_get?, List.get?_eq_get h]
  rfl

theorem longText_length (n : Nat) : (longText n).length = n := by
  simp [longText, String.length]

/-! ## Equivalence of the ℚ page estimator and its scaled integer mirror -/

theorem scaledHeight_eq (element : Elem) :
    (scaledHeight element : ℚ) = _estimate_element_height element * 89580 := by
  unfold scaledHeight _estimate_element_height
  by_cases h : strippedEmpty element.text
  · rw [if_pos h, if_pos h]
    norm_num
  · rw [if_neg h, if_neg h]
    push_cast
    rw [show ∀ x : ℚ, (max 1 x * (11 * 1.5) + 6) * 89580 = max 1 x * 1478070 + 537480
      from fun x => by ring]
    rw [max_mul_of_nonneg _ _ (by norm_num : (0:ℚ) ≤ 1478070)]
    have hx : ((element.text.length : ℚ) / (CONTENT_WIDTH / (11 * 0.6))) * 1478070 =
        21780 * (element.text.length : ℚ) := by
      rw [CONTENT_WIDTH]
      norm_num
      ring
    rw [hx]
    norm_num

theorem calc_pages_scaled_eq :
    ∀ (l : List Elem) (page : Nat) (cum : ℚ) (cumS : Nat),
      (cumS : ℚ) = cum * 89580 →
      calcPagesAux cum page l = calcPagesScaledAux cumS page l := by
  intro l
  induction l with
  | nil => intros; rfl
  | cons e rest ih =>
    intro page cum cumS hc
    have hcond : PAGE_CONTENT_HEIGHT < cum + _estimate_element_height e ↔
        SCALED_PAGE_CONTENT_HEIGHT < cumS + scaledHeight e := by
      rw [show (PAGE_CONTENT_HEIGHT < cum + _estimate_element_height e) ↔
          (PAGE_CONTENT_HEIGHT * 89580 < (cum + _estimate_element_height e) * 89580) from
        (mul_lt_mul_right (by norm_num : (0:ℚ) < 89580)).symm]
      rw [add_mul, ← hc, ← scaledHeight_eq,
        show (PAGE_CONTENT_HEIGHT : ℚ) * 89580 = ((SCALED_PAGE_CONTENT_HEIGHT : Nat) : ℚ) from by
          rw [PAGE_CONTENT_HEIGHT, SCALED_PAGE_CONTENT_HEIGHT]; norm_num]
      exact_mod_cast Iff.rfl
    simp only [calcPagesAux, calcPagesScaledAux]
    by_cases hp : PAGE_CONTENT_HEIGHT < cum + _estimate_element_height e
    · rw [if_pos hp, if_pos (hcond.mp hp)]
      congr 1
      exact ih (page + 1) _ _ (scaledHeight_eq e)
    · rw [if_neg hp, if_neg (fun hx => hp (hcond.mpr hx))]
      congr 1
      refine ih page _ _ ?_
      push_cast
      rw [hc, scaledHeight_eq]
      ring

theorem calculate_page_positions_scaled (all_elements : List Elem) :
    _calculate_page_positions all_elements = scaledPagePositions all_elements := by
  exact calc_pages_scaled_eq all_elements 1 0 0 (by norm_num)

theorem splitDegree_scaled (all_elements group : List Elem) :
    splitDegree all_elements group = splitDegreeScaled all_elements group := by
  unfold splitDegree splitDegreeScaled
  rw [calculate_page_positions_scaled]

/-! ## C9: sentence counting on the abbreviation example -/

/-- C9: `_count_sentences "Dr. Smith went home. He was tired."` is exactly
2 — the period of the configured abbreviation `Dr` is replaced by the
placeholder and does not end a sentence, while the period before `He`
(whitespace + uppercase) and the final period each count once. -/
theorem c9_sentence_count_abbreviation :
    _count_sentences "Dr. Smith went home. He was tired." = 2 := by
  decide

/-! ## C3: the height estimator -/

/-- C3 counterexample: for a 100-character unit (non-empty after
stripping) the code's height is the fractional-line value
`45258/1493 ≈ 30.31`, not the spec's ceiling formula
`⌈100/chars_per_line⌉ · 16.5 + 6 = 39`; `_estimate_element_height` does
use a fractional number of lines. -/
theorem c3_counterexample :
    strippedEmpty (longText 100) = false ∧
    _estimate_element_height ⟨0, "w:p", longText 100⟩ ≠
      spec_ceil_height ⟨0, "w:p", longText 100⟩ := by
  constructor
  · decide
  · intro heq
    have h1 : _estimate_element_height ⟨0, "w:p", longText 100⟩ * 89580 = 2715480 :=
      calc _estimate_element_height ⟨0, "w:p", longText 100⟩ * 89580
          = ((scaledHeight ⟨0, "w:p", longText 100⟩ : Nat) : ℚ) := (scaledHeight_eq _).symm
        _ = 2715480 := by
            rw [show scaledHeight ⟨0, "w:p", longText 100⟩ = 2715480 from by decide]
            norm_num
    have h2 : spec_ceil_height ⟨0, "w:p", longText 100⟩ = 39 := by
      unfold spec_ceil_height
      have hlen : ((Elem.mk 0 "w:p" (longText 100)).text.length : ℚ) = 100 := by
        rw [show (Elem.mk 0 "w:p" (longText 100)).text = longText 100 from rfl, longText_length]
        norm_num
      have hceil : ⌈((Elem.mk 0 "w:p" (longText 100)).text.length : ℚ) / (CONTENT_WIDTH / 6.6)⌉ = 2 := by
        rw [hlen, CONTENT_WIDTH]
        rw [Int.ceil_eq_iff]
        constructor <;> norm_num
      rw [hceil]
      norm_num
    rw [heq, h2] at h1
    norm_num at h1

/-- C3 as amended: `_estimate_element_height` returns one line-height
(16.5 points) for a unit whose stripped text is empty, and otherwise
exactly `max 1 (char_count / chars_per_line) · line_height + padding` —
the line count is the possibly fractional quotient floored below at one,
not its integer ceiling. -/
theorem c3_height_formula_amended (element : Elem) :
    _estimate_element_height element = amended_spec_height element := by
  unfold _estimate_element_height amended_spec_height
  by_cases h : strippedEmpty element.text
  · rw [if_pos h, if_pos h]
    norm_num
  · rw [if_neg h, if_neg h]
    norm_num

/-! ## C8: idempotence of the blank-paragraph collapsing pass -/

theorem cleanup_suffix_idem (s : List Elem) :
    (((s.takeWhile blankPara).take 1 ++ s.dropWhile blankPara).takeWhile blankPara).take 1 ++
        ((s.takeWhile blankPara).take 1 ++ s.dropWhile blankPara).dropWhile blankPara =
      (s.takeWhile blankPara).take 1 ++ s.dropWhile blankPara := by
  cases s with
  | nil => rfl
  | cons e t =>
    by_cases h : blankPara e = true
    · rw [List.takeWhile_cons_of_pos h, List.dropWhile_cons_of_pos h]
      simp only [List.take_cons_succ, List.take_zero, List.singleton_append]
      rw [List.takeWhile_cons_of_pos h, List.dropWhile_cons_of_pos h,
        dropWhile_dropWhile]
      simp
    · rw [List.takeWhile_cons_of_neg h, List.dropWhile_cons_of_neg h]
      simp only [List.take_nil, List.nil_append]
      rw [List.takeWhile_cons_of_neg h, List.dropWhile_cons_of_neg h]
      simp

/-- C8: the blank-paragraph collapsing pass is idempotent — for every
element sequence and every index, applying
`_cleanup_excess_empty_paragraphs` twice at that index yields the same
sequence as applying it once. -/
theorem c8_cleanup_idempotent (all_elements : List Elem) (current_index : Nat) :
    _cleanup_excess_empty_paragraphs
        (_cleanup_excess_empty_paragraphs all_elements current_index) current_index =
      _cleanup_excess_empty_paragraphs all_elements current_index := by
  rcases le_or_lt (current_index + 1) all_elements.length with hle | hlt
  · have hA : (all_elements.take (current_index + 1)).length = current_index + 1 := by
      rw [List.length_take]
      omega
    unfold _cleanup_excess_empty_paragraphs
    rw [List.take_left' hA, List.drop_left' hA]
    rw [cleanup_suffix_idem]
  · have h1 : _cleanup_excess_empty_paragraphs all_elements current_index = all_elements := by
      unfold _cleanup_excess_empty_paragraphs
      rw [List.take_of_length_le (by omega), List.drop_eq_nil_of_le (by omega)]
      simp
    rw [h1, h1]

/-! ## C7: page assignment monotonicity -/

theorem calcPagesAux_ge (l : List Elem) :
    ∀ (cum : ℚ) (page x : Nat), x ∈ calcPagesAux cum page l → page ≤ x := by
  induction l with
  | nil => intro cum page x hx; simp [calcPagesAux] at hx
  | cons e rest ih =>
    intro cum page x hx
    simp only [calcPagesAux] at hx
    split at hx
    · rcases List.mem_cons.mp hx with h | h
      · omega
      · have := ih _ _ _ h; omega
    · rcases List.mem_cons.mp hx with h | h
      · omega
      · exact ih _ _ _ h

theorem calcPagesAux_sorted (l : List Elem) :
    ∀ (cum : ℚ) (page : Nat), List.Sorted (· ≤ ·) (calcPagesAux cum page l) := by
  induction l with
  | nil => intro cum page; simp [calcPagesAux]
  | cons e rest ih =>
    intro cum page
    simp only [calcPagesAux]
    split
    · rw [List.sorted_cons]
      exact ⟨fun b hb => calcPagesAux_ge _ _ _ _ hb, ih _ _⟩
    · rw [List.sorted_cons]
      exact ⟨fun b hb => calcPagesAux_ge _ _ _ _ hb, ih _ _⟩

/-- C7 as amended: the page mapping of `_calculate_page_positions` is
monotonically non-decreasing along document order; the first unit (when
present) is assigned page 1 exactly when its estimated height fits the
page content height, and page 2 otherwise (an oversized first unit
triggers the overflow branch immediately, so "first unit on page 1" does
not hold unconditionally). -/
theorem c7_assign_pages_amended (all_elements : List Elem) :
    (∀ i j : Nat, i < j → j < (_calculate_page_positions all_elements).length →
      (_calculate_page_positions all_elements).getD i 0 ≤
        (_calculate_page_positions all_elements).getD j 0) ∧
    (∀ e rest, all_elements = e :: rest →
      (_calculate_page_positions all_elements).getD 0 0 =
        if _estimate_element_height e ≤ PAGE_CONTENT_HEIGHT then 1 else 2) := by
  constructor
  · intro i j hij hj
    have hi : i < (_calculate_page_positions all_elements).length := lt_trans hij hj
    rw [getD_eq_get_of_lt _ _ hi, getD_eq_get_of_lt _ _ hj]
    have hs := calcPagesAux_sorted all_elements 0 1
    exact List.pairwise_iff_get.mp hs ⟨i, hi⟩ ⟨j, hj⟩ (Fin.mk_lt_mk.mpr hij)
  · intro e rest hE
    subst hE
    show (calcPagesAux 0 1 (e :: rest)).getD 0 0 = _
    simp only [calcPagesAux]
    by_cases hp : PAGE_CONTENT_HEIGHT < 0 + _estimate_element_height e
    · rw [if_pos hp, if_neg (by rw [zero_add] at hp; exact not_le.mpr hp)]
      simp
    · rw [if_neg hp, if_pos (by rw [zero_add] at hp; exact not_lt.mp hp)]
      simp

theorem strippedEmpty_longText (n : Nat) (h : 0 < n) :
    strippedEmpty (longText n) = false := by
  cases n with
  | zero => omega
  | succ m => rfl

theorem scaledHeight_longText (uid : Nat) (tag : String) (n : Nat) (h : 0 < n) :
    scaledHeight ⟨uid, tag, longText n⟩ = max 1478070 (21780 * n) + 537480 := by
  unfold scaledHeight
  rw [show (Elem.mk uid tag (longText n)).text = longText n from rfl]
  rw [strippedEmpty_longText n h, longText_length]
  simp

/-- C7 counterexample: a document whose first unit is a single 3000
character paragraph; its estimated height exceeds the page content height,
so the (present) first unit is assigned page 2, not page 1. -/
theorem c7_counterexample :
    ([⟨0, "w:p", longText 3000⟩] : List Elem) ≠ [] ∧
    (_calculate_page_positions [⟨0, "w:p", longText 3000⟩]).getD 0 0 = 2 := by
  constructor
  · simp
  · rw [calculate_page_positions_scaled]
    have h0 : scaledHeight ⟨0, "w:p", longText 3000⟩ = 65877480 := by
      rw [scaledHeight_longText 0 "w:p" 3000 (by norm_num)]
      decide
    show (calcPagesScaledAux 0 1 [⟨0, "w:p", longText 3000⟩]).getD 0 0 = 2
    simp only [calcPagesScaledAux, h0]
    norm_num [SCALED_PAGE_CONTENT_HEIGHT]

set_option maxRecDepth 20000 in
/-- C7 witness: the amended theorem applied to a concrete two-unit
document. -/
theorem c7_assign_pages_amended_witness :
    (_calculate_page_positions [⟨0, "w:p", longText 1000⟩, ⟨1, "w:p", longText 1000⟩]).getD 0 0 ≤
      (_calculate_page_positions [⟨0, "w:p", longText 1000⟩, ⟨1, "w:p", longText 1000⟩]).getD 1 0 ∧
    (_calculate_page_positions [⟨0, "w:p", longText 1000⟩, ⟨1, "w:p", longText 1000⟩]).getD 0 0 =
      if _estimate_element_height ⟨0, "w:p", longText 1000⟩ ≤ PAGE_CONTENT_HEIGHT then 1 else 2 := by
  constructor
  · exact (c7_assign_pages_amended _).1 0 1 (by norm_num)
      (by rw [calculate_page_positions_scaled]; decide)
  · exact (c7_assign_pages_amended _).2 ⟨0, "w:p", longText 1000⟩ [⟨1, "w:p", longText 1000⟩] rfl

/-! ## C4: extraction on the three-unit example -/

/-- C4: for any three units classified as `heading`, `paragraph` and
neither (`Other` maps to `None`), `extract_groups` with the source catalog
returns exactly two groups — `heading+paragraph` at positions `[0, 1]` and
`paragraph` at position `[1]` — so the middle unit belongs to both groups
and the overlap is not deduplicated. -/
theorem c4_three_unit_extraction {α : Type} [Inhabited α] (getType : α → Option String)
    (a b c : α) (ha : getType a = some "heading") (hb : getType b = some "paragraph")
    (hc : getType c = none) :
    extract_groups GROUP_PATTERNS getType [a, b, c] =
      [⟨some "heading+paragraph", 0, [0, 1], [a, b]⟩,
       ⟨some "paragraph", 1, [1], [b]⟩] := by
  have hL : (List.range (maxPatternLength GROUP_PATTERNS)).reverse = [1, 0] := by decide
  show extractFromPos GROUP_PATTERNS getType [a, b, c] []
      (List.range ([a, b, c] : List α).length) = _
  rw [show (List.range ([a, b, c] : List α).length) = [0, 1, 2] from by simp; decide]
  simp only [extractFromPos, hL, extractAtPos]
  simp +decide [List.range_succ, _match_pattern, GROUP_PATTERNS, ha, hb, hc]

/-- C4 witness: the theorem instantiated at the identity classifier over
type tags themselves. -/
theorem c4_three_unit_extraction_witness :
    extract_groups GROUP_PATTERNS (id : Option String → Option String)
        [some "heading", some "paragraph", none] =
      [⟨some "heading+paragraph", 0, [0, 1], [some "heading", some "paragraph"]⟩,
       ⟨some "paragraph", 1, [1], [some "paragraph"]⟩] :=
  c4_three_unit_extraction id (some "heading") (some "paragraph") none rfl rfl rfl

/-! ## C5: strict window matching -/

theorem match_pattern_spec :
    ∀ (patterns : List (String × List String)) (window_types : List (Option String))
      (nm : Option String),
      _match_pattern patterns window_types = (true, nm) →
      ∃ name ptypes, (name, ptypes) ∈ patterns ∧ nm = some name ∧
        window_types = ptypes.map some := by
  intro patterns
  induction patterns with
  | nil => intro wt nm h; simp [_match_pattern] at h
  | cons p rest ih =>
    intro wt nm h
    obtain ⟨name, ptypes⟩ := p
    simp only [_match_pattern] at h
    split_ifs at h with heq
    · rw [Prod.mk.injEq] at h
      exact ⟨name, ptypes, by simp, h.2.symm, heq⟩
    · obtain ⟨n2, p2, hmem, h1, h2⟩ := ih wt nm h
      exact ⟨n2, p2, List.mem_cons_of_mem _ hmem, h1, h2⟩

theorem extractAtPos_valid {α : Type} [Inhabited α] (patterns : List (String × List String))
    (getType : α → Option String) (all_elements : List α) (i : Nat) :
    ∀ (js : List Nat) (P : List (TGroup α)),
      (∀ g ∈ P, validGroup patterns getType g) →
      ∀ g ∈ extractAtPos patterns getType all_elements i P js,
        validGroup patterns getType g := by
  intro js
  induction js with
  | nil => intro P hP g hg; exact hP g hg
  | cons j js ih =>
    intro P hP g hg
    simp only [extractAtPos] at hg
    split_ifs at hg with hlen
    · exact ih P hP g hg
    · revert hg
      rcases hm : _match_pattern patterns
          (((List.range (j + 1)).map fun k => all_elements.getD (i + k) default).map getType) with
        ⟨b, nm⟩
      cases b
      · intro hg
        exact ih P hP g hg
      · intro hg
        refine ih _ ?_ g hg
        intro g' hg'
        rcases List.mem_append.mp hg' with h' | h'
        · exact hP g' h'
        · obtain ⟨name, ptypes, hmem, hnm, hwt⟩ := match_pattern_spec _ _ _ hm
          rcases List.mem_singleton.mp h' with rfl
          exact ⟨name, ptypes, hmem, hnm, hwt⟩

theorem extractFromPos_valid {α : Type} [Inhabited α] (patterns : List (String × List String))
    (getType : α → Option String) (all_elements : List α) :
    ∀ (is : List Nat) (P : List (TGroup α)),
      (∀ g ∈ P, validGroup patterns getType g) →
      ∀ g ∈ extractFromPos patterns getType all_elements P is,
        validGroup patterns getType g := by
  intro is
  induction is with
  | nil => intro P hP g hg; exact hP g hg
  | cons i is ih =>
    intro P hP g hg
    simp only [extractFromPos] at hg
    exact ih _ (extractAtPos_valid patterns getType all_elements i _ P hP) g hg

/-- C5: a window of units becomes a group only when its tag sequence
equals a catalog pattern's tag sequence exactly and in order — every
emitted group's element types are precisely the matched pattern's types,
so no unit typed `None` (an `Other`/`Empty` unit) is ever filtered out or
skipped: a window containing such a unit matches no pattern, and
accordingly no emitted group contains one. -/
theorem c5_strict_window_matching {α : Type} [Inhabited α]
    (patterns : List (String × List String)) (getType : α → Option String)
    (all_elements : List α) (g : TGroup α)
    (hg : g ∈ extract_groups patterns getType all_elements) :
    (∃ name ptypes, (name, ptypes) ∈ patterns ∧ g.type = some name ∧
      g.elements.map getType = ptypes.map some) ∧
    none ∉ g.elements.map getType := by
  have hv : validGroup patterns getType g :=
    extractFromPos_valid patterns getType all_elements _ [] (by simp) g hg
  refine ⟨hv, ?_⟩
  obtain ⟨name, ptypes, _, _, hmap⟩ := hv
  rw [hmap]
  simp

/-- C5 witness: the theorem applied to the single group extracted from a
one-unit document classified `paragraph`. -/
theorem c5_strict_window_matching_witness :
    (∃ name ptypes, (name, ptypes) ∈ GROUP_PATTERNS ∧
      (⟨some "paragraph", 0, [0], [some "paragraph"]⟩ : TGroup (Option String)).type = some name ∧
      (⟨some "paragraph", 0, [0], [some "paragraph"]⟩ : TGroup (Option String)).elements.map id =
        ptypes.map some) ∧
    none ∉ (⟨some "paragraph", 0, [0], [some "paragraph"]⟩ : TGroup (Option String)).elements.map id :=
  c5_strict_window_matching GROUP_PATTERNS id [some "paragraph"]
    ⟨some "paragraph", 0, [0], [some "paragraph"]⟩ (by decide)

/-! ## C1: split detection vs shared-page members -/

/-- C1 counterexample: both members' normalized texts ("a" and "b") are
substrings of the *same* rendered page's normalized text (page 2, "a b"),
yet `detect_split_groups` flags the group as split — exact matching is
first-match-only, so member "a" is attributed to page 1. -/
theorem c1_counterexample :
    inStr (normText "a") (normText "a b") = true ∧
    inStr (normText "b") (normText "a b") = true ∧
    detect_split_groups [⟨1, "a"⟩, ⟨2, "a b"⟩] [⟨0, [0, 1]⟩]
      [⟨0, "w:p", "a"⟩, ⟨1, "w:p", "b"⟩] = [⟨0, [0, 1]⟩] := by
  decide

theorem pages_for_group_const (V : List Page) (all_elements : List Elem) (p : Nat)
    (hp : 0 < p) :
    ∀ (idxs : List Nat),
      (∀ idx ∈ idxs, strippedEmpty (all_elements.getD idx default).text = false →
        _find_exact_match (normText (all_elements.getD idx default).text) V = some p) →
      ∀ x ∈ pages_for_group V all_elements idxs, x = p := by
  intro idxs
  induction idxs with
  | nil => intro _ x hx; simp [pages_for_group] at hx
  | cons i rest ih =>
    intro h x hx
    simp only [pages_for_group] at hx
    by_cases hb : strippedEmpty (all_elements.getD i default).text = true
    · rw [if_pos hb] at hx
      exact ih (fun idx hidx => h idx (List.mem_cons_of_mem _ hidx)) x hx
    · rw [if_neg hb] at hx
      have hf := h i (List.mem_cons_self _ _) (by simpa using hb)
      rw [hf] at hx
      rw [if_pos (by simp [pyTruthyOpt]; omega)] at hx
      rcases List.mem_cons.mp hx with h' | h'
      · simpa using h'
      · exact ih (fun idx hidx => h idx (List.mem_cons_of_mem _ hidx)) x h'

/-- C1 as amended: if every non-empty member of a group resolves by exact
containment to the *same first-matching* rendered page `p` (the first page
whose normalized text contains the member's normalized text), then
`detect_split_groups` does not flag the group as split.  (The original
claim — mere joint containment in some common page — fails because exact
matching is first-match-only; see the counterexample.) -/
theorem c1_same_first_match_not_split (V : List Page) (P : List DGroup)
    (all_elements : List Elem) (g : DGroup) (p : Nat) (hp : 0 < p)
    (h : ∀ idx ∈ g.doc_indices,
      strippedEmpty (all_elements.getD idx default).text = false →
      _find_exact_match (normText (all_elements.getD idx default).text) V = some p) :
    g ∉ detect_split_groups V P all_elements := by
  intro hmem
  rw [detect_split_groups, List.mem_filter] at hmem
  have hconst := pages_for_group_const V all_elements p hp g.doc_indices h
  have hle := dedup_length_le_one (pages_for_group V all_elements g.doc_indices) p hconst
  have := of_decide_eq_true hmem.2
  omega

/-- C1 witness: a one-member group whose member matches page 1 exactly is
not flagged. -/
theorem c1_same_first_match_not_split_witness :
    (⟨0, [0]⟩ : DGroup) ∉
      detect_split_groups [⟨1, "a"⟩] [⟨0, [0]⟩] [⟨0, "w:p", "a"⟩] :=
  c1_same_first_match_not_split [⟨1, "a"⟩] [⟨0, [0]⟩] [⟨0, "w:p", "a"⟩] ⟨0, [0]⟩ 1
    (by norm_num) (by decide)

/-! ## C10: shape of the partial-split result -/

theorem detectPartialAux_some_spec (t : String) (mo : Nat) :
    ∀ (ps : List Page) (fc : List Char) (fp : Nat) (r : List Nat),
      detectPartialAux t mo ps (some (fc, fp)) = some r →
      ∃ j, j < ps.length ∧ r = [fp, (ps.getD j default).page_num] := by
  intro ps
  induction ps with
  | nil => intro fc fp r h; simp [detectPartialAux] at h
  | cons page rest ih =>
    intro fc fp r h
    simp only [detectPartialAux] at h
    split_ifs at h with h1 h2
    · injection h with h'
      exact ⟨0, by simp, h'.symm⟩
    · obtain ⟨j, hj, hr⟩ := ih _ _ r h
      exact ⟨j + 1, by simpa using hj, by simpa using hr⟩
    · obtain ⟨j, hj, hr⟩ := ih _ _ r h
      exact ⟨j + 1, by simpa using hj, by simpa using hr⟩

theorem detectPartialAux_none_spec (t : String) (mo : Nat) :
    ∀ (ps : List Page) (r : List Nat),
      detectPartialAux t mo ps none = some r →
      ∃ i j, i < j ∧ j < ps.length ∧
        r = [(ps.getD i default).page_num, (ps.getD j default).page_num] := by
  intro ps
  induction ps with
  | nil => intro r h; simp [detectPartialAux] at h
  | cons page rest ih =>
    intro r h
    simp only [detectPartialAux] at h
    split_ifs at h with h1
    · obtain ⟨j, hj, hr⟩ := detectPartialAux_some_spec t mo rest _ _ r h
      exact ⟨0, j + 1, by omega, by simpa using hj, by simpa using hr⟩
    · obtain ⟨i, j, hij, hj, hr⟩ := ih r h
      exact ⟨i + 1, j + 1, by omega, by simpa using hj, by simpa using hr⟩

/-- C10: for every element text and page list with strictly increasing
page numbers (as `extract_pdf_data` produces), `_detect_partial_split`
returns either `none` or a list of exactly two page numbers taken from two
positions of the page list, the second strictly later than the first — so
the two recorded page numbers are strictly increasing, in particular
distinct; a single page or more than two pages is never returned. -/
theorem c10_partial_split_shape (elem_text_normalized : String) (pages : List Page)
    (hmono : List.Pairwise (fun a b => a.page_num < b.page_num) pages) :
    _detect_partial_split elem_text_normalized pages = none ∨
    ∃ i j, i < j ∧ j < pages.length ∧
      _detect_partial_split elem_text_normalized pages =
        some [(pages.getD i default).page_num, (pages.getD j default).page_num] ∧
      (pages.getD i default).page_num < (pages.getD j default).page_num := by
  cases h : _detect_partial_split elem_text_normalized pages with
  | none => exact Or.inl rfl
  | some r =>
    right
    obtain ⟨i, j, hij, hj, hr⟩ := detectPartialAux_none_spec elem_text_normalized 6 pages r h
    refine ⟨i, j, hij, hj, by rw [hr], ?_⟩
    have hi : i < pages.length := lt_trans hij hj
    have := List.pairwise_iff_get.mp hmono ⟨i, hi⟩ ⟨j, hj⟩ (Fin.mk_lt_mk.mpr hij)
    rw [show pages.getD i default = pages.get ⟨i, hi⟩ from by
        rw [List.getD_eq_get?, List.get?_eq_get hi]; rfl,
      show pages.getD j default = pages.get ⟨j, hj⟩ from by
        rw [List.getD_eq_get?, List.get?_eq_get hj]; rfl]
    exact this

/-- C10 witness: a fourteen-word element split as seven words on each of
two pages is detected as `some [1, 2]`; the theorem's disjunction is
instantiated on that input. -/
theorem c10_partial_split_shape_witness :
    _detect_partial_split "a b c d e f g h i j k l m n"
        [⟨1, "a b c d e f g"⟩, ⟨2, "h i j k l m n"⟩] = none ∨
    ∃ i j, i < j ∧ j < ([⟨1, "a b c d e f g"⟩, ⟨2, "h i j k l m n"⟩] : List Page).length ∧
      _detect_partial_split "a b c d e f g h i j k l m n"
          [⟨1, "a b c d e f g"⟩, ⟨2, "h i j k l m n"⟩] =
        some [(([⟨1, "a b c d e f g"⟩, ⟨2, "h i j k l m n"⟩] : List Page).getD i default).page_num,
              (([⟨1, "a b c d e f g"⟩, ⟨2, "h i j k l m n"⟩] : List Page).getD j default).page_num] ∧
      (([⟨1, "a b c d e f g"⟩, ⟨2, "h i j k l m n"⟩] : List Page).getD i default).page_num <
        (([⟨1, "a b c d e f g"⟩, ⟨2, "h i j k l m n"⟩] : List Page).getD j default).page_num :=
  c10_partial_split_shape "a b c d e f g h i j k l m n"
    [⟨1, "a b c d e f g"⟩, ⟨2, "h i j k l m n"⟩] (by decide)

/-! ## Reflow-loop lemmas (C2 and C6) -/

theorem reflowAttempts_succ (fuel : Nat) (all_elements group : List Elem) (fi b c : Nat) :
    reflowAttempts (fuel + 1) all_elements group fi b c =
      if splitDegree (_insert_line_break_after all_elements ((fi : Int) - 1 + (b : Int))
          (_create_empty_paragraph c)) group = 1 then
        (_insert_line_break_after all_elements ((fi : Int) - 1 + (b : Int))
          (_create_empty_paragraph c), b + 1)
      else
        reflowAttempts fuel (_insert_line_break_after all_elements ((fi : Int) - 1 + (b : Int))
          (_create_empty_paragraph c)) group fi (b + 1) (c + 1) := rfl

theorem docAfterBreaks_succ (all_elements : List Elem) (fi c k : Nat) :
    docAfterBreaks all_elements fi c (k + 1) =
      _insert_line_break_after (docAfterBreaks all_elements fi c k)
        ((fi : Int) - 1 + (k : Int)) (_create_empty_paragraph (c + k)) := rfl

theorem listMin_mem : ∀ (l : List Nat), l ≠ [] → listMin l ∈ l := by
  intro l
  induction l with
  | nil => intro h; exact absurd rfl h
  | cons x rest ih =>
    intro _
    cases rest with
    | nil => simp [listMin]
    | cons y t =>
      rw [show listMin (x :: y :: t) = min x (listMin (y :: t)) from rfl]
      rcases min_choice x (listMin (y :: t)) with hm | hm <;> rw [hm]
      · simp
      · exact List.mem_cons_of_mem _ (ih (by simp))

theorem listIndexOf_lt_length :
    ∀ (l : List Elem) (t : Elem) (i : Nat), listIndexOf l t = some i → i < l.length := by
  intro l
  induction l with
  | nil => intro t i h; simp [listIndexOf] at h
  | cons e rest ih =>
    intro t i h
    simp only [listIndexOf] at h
    split_ifs at h with he
    · injection h with h
      subst h
      simp
    · cases hi : listIndexOf rest t with
      | none => rw [hi] at h; simp at h
      | some j =>
        rw [hi] at h
        simp only [Option.map_some'] at h
        injection h with h
        have := ih t j hi
        simp only [List.length_cons]
        omega

theorem groupIndices_lt_length (all_elements group : List Elem) (i : Nat)
    (h : i ∈ groupIndices all_elements group) : i < all_elements.length := by
  rw [groupIndices, List.mem_filterMap] at h
  obtain ⟨a, _, ha⟩ := h
  exact listIndexOf_lt_length all_elements a i ha

theorem reflowAttempts_breaks_ge :
    ∀ (fuel : Nat) (all_elements group : List Elem) (fi b c : Nat),
      b ≤ (reflowAttempts fuel all_elements group fi b c).2 := by
  intro fuel
  induction fuel with
  | zero => intro _ _ _ b _; exact le_refl b
  | succ f ih =>
    intro elems group fi b c
    rw [reflowAttempts_succ]
    split
    · simp
    · exact le_trans (Nat.le_succ b) (ih _ _ _ (b + 1) _)

theorem reflowAttempts_breaks_pos (fuel : Nat) (all_elements group : List Elem)
    (fi b c : Nat) (h : 0 < fuel) :
    b + 1 ≤ (reflowAttempts fuel all_elements group fi b c).2 := by
  cases fuel with
  | zero => omega
  | succ f =>
    rw [reflowAttempts_succ]
    split
    · simp
    · exact reflowAttempts_breaks_ge f _ _ _ _ _

/-! ## C2: where the corrective insertion happens -/

set_option maxRecDepth 30000 in
/-- C2 counterexample: a group of three 1000-character units starting at
document position 0 is split across pages 1 and 2, yet `processGroup`
performs no insertion at all and returns the document unchanged — split
groups beginning at position 0 receive no corrective attempt. -/
theorem c2_counterexample :
    splitDegree c2Doc c2Doc = 2 ∧
    listMin (groupIndices c2Doc c2Doc) = 0 ∧
    processGroup c2Doc c2Doc 100 = (c2Doc, 0) := by
  have hsd : splitDegree c2Doc c2Doc = 2 := by
    rw [splitDegree_scaled]
    decide
  refine ⟨hsd, by decide, ?_⟩
  unfold processGroup
  rw [if_neg (by decide : ¬(groupIndices c2Doc c2Doc = [])),
    if_pos (by rw [hsd]; norm_num : 1 < splitDegree c2Doc c2Doc),
    if_neg (by decide : ¬(0 < listMin (groupIndices c2Doc c2Doc)))]

/-- C2 as amended: for a group flagged as split, the engine inserts a
forced-break blank unit immediately before the group's first member (the
first insertion lands at exactly the first member's position) *only when
that first member is at a document position greater than 0*; a split group
whose first member is at position 0 receives no insertion and the document
is returned unchanged. -/
theorem c2_reflow_insert_amended (all_elements group : List Elem) (counter : Nat)
    (hne : groupIndices all_elements group ≠ [])
    (hsplit : 1 < splitDegree all_elements group) :
    (listMin (groupIndices all_elements group) = 0 →
      processGroup all_elements group counter = (all_elements, 0)) ∧
    (0 < listMin (groupIndices all_elements group) →
      1 ≤ (processGroup all_elements group counter).2 ∧
      docAfterBreaks all_elements (listMin (groupIndices all_elements group)) counter 1 =
        all_elements.take (listMin (groupIndices all_elements group)) ++
          _create_empty_paragraph counter ::
            all_elements.drop (listMin (groupIndices all_elements group))) := by
  have hPG : processGroup all_elements group counter =
      if 0 < listMin (groupIndices all_elements group) then
        reflowAttempts 10 all_elements group (listMin (groupIndices all_elements group)) 0 counter
      else (all_elements, 0) := by
    unfold processGroup
    rw [if_neg hne, if_pos hsplit]
  constructor
  · intro h0
    rw [hPG, if_neg (by omega)]
  · intro hpos
    have hfi_mem : listMin (groupIndices all_elements group) ∈ groupIndices all_elements group :=
      listMin_mem _ hne
    have hfi_lt : listMin (groupIndices all_elements group) < all_elements.length :=
      groupIndices_lt_length _ _ _ hfi_mem
    constructor
    · rw [hPG, if_pos hpos]
      exact reflowAttempts_breaks_pos 10 _ _ _ _ _ (by norm_num)
    · have hd : docAfterBreaks all_elements (listMin (groupIndices all_elements group)) counter 1 =
          _insert_line_break_after all_elements
            ((listMin (groupIndices all_elements group) : Int) - 1 + ((0 : Nat) : Int))
            (_create_empty_paragraph (counter + 0)) := rfl
      rw [hd]
      unfold _insert_line_break_after
      rw [if_pos (by constructor <;> omega)]
      have htn : ((listMin (groupIndices all_elements group) : Int) - 1 + ((0 : Nat) : Int)).toNat + 1 =
          listMin (groupIndices all_elements group) := by omega
      rw [htn]
      rfl

set_option maxRecDepth 30000 in
/-- C2 witness: the amended theorem applied to a concrete split group
starting at position 2. -/
theorem c2_reflow_insert_amended_witness :
    1 ≤ (processGroup c6Doc c6Group 100).2 ∧
    docAfterBreaks c6Doc (listMin (groupIndices c6Doc c6Group)) 100 1 =
      c6Doc.take (listMin (groupIndices c6Doc c6Group)) ++
        _create_empty_paragraph 100 :: c6Doc.drop (listMin (groupIndices c6Doc c6Group)) :=
  (c2_reflow_insert_amended c6Doc c6Group 100 (by decide)
    (by rw [splitDegree_scaled]; decide)).2 (by decide)

/-! ## C6: the corrective loop stops at first convergence -/

theorem reflowAttempts_converge (all_elements group : List Elem) (fi c0 N : Nat)
    (hN : N < 10)
    (hmin : ∀ m, 0 < m → m < N →
      splitDegree (docAfterBreaks all_elements fi c0 m) group ≠ 1)
    (hsucc : splitDegree (docAfterBreaks all_elements fi c0 N) group = 1) :
    ∀ (k j : Nat), j + (k + 1) = N →
      reflowAttempts (10 - j) (docAfterBreaks all_elements fi c0 j) group fi j (c0 + j) =
        (docAfterBreaks all_elements fi c0 N, N) := by
  intro k
  induction k with
  | zero =>
    intro j hj
    have hj1 : j + 1 = N := by omega
    have hfuel : 10 - j = (9 - j) + 1 := by omega
    rw [hfuel, reflowAttempts_succ, ← docAfterBreaks_succ, hj1, if_pos hsucc]
  | succ k ih =>
    intro j hj
    have hfuel : 10 - j = (9 - j) + 1 := by omega
    rw [hfuel, reflowAttempts_succ, ← docAfterBreaks_succ,
      if_neg (hmin (j + 1) (by omega) (by omega))]
    have h9 : 9 - j = 10 - (j + 1) := by omega
    rw [h9]
    exact ih (j + 1) (by omega)

/-- C6: for a group initially split across exactly 2 pages, starting at a
position greater than 0, with attempt bound 10: if the estimator first
places all members on one page after exactly `N` inserted breaks
(`0 < N < 10`, and not after any smaller positive number of breaks), then
the reflow engine stops with success, having produced exactly the
`N`-break document and reported exactly `N` breaks — it never inserts an
`(N+1)`-th break. -/
theorem c6_reflow_stops_at_convergence (all_elements group : List Elem) (counter N : Nat)
    (hne : groupIndices all_elements group ≠ [])
    (hsplit : splitDegree all_elements group = 2)
    (hfi : 0 < listMin (groupIndices all_elements group))
    (hN0 : 0 < N) (hN : N < 10)
    (hmin : ∀ m, 0 < m → m < N →
      splitDegree (docAfterBreaks all_elements
        (listMin (groupIndices all_elements group)) counter m) group ≠ 1)
    (hsucc : splitDegree (docAfterBreaks all_elements
      (listMin (groupIndices all_elements group)) counter N) group = 1) :
    processGroup all_elements group counter =
      (docAfterBreaks all_elements (listMin (groupIndices all_elements group)) counter N, N) := by
  unfold processGroup
  rw [if_neg hne, if_pos (by omega : 1 < splitDegree all_elements group), if_pos hfi]
  exact reflowAttempts_converge all_elements group
    (listMin (groupIndices all_elements group)) counter N hN hmin hsucc (N - 1) 0 (by omega)

set_option maxRecDepth 30000 in
/-- C6 witness: on `c6Doc`, the group `c6Group` is split across pages
1 and 2, one break unifies it, and `processGroup` returns exactly the
one-break document with count 1. -/
theorem c6_reflow_stops_at_convergence_witness :
    splitDegree c6Doc c6Group = 2 ∧
    processGroup c6Doc c6Group 100 = (docAfterBreaks c6Doc 2 100 1, 1) := by
  have hmin_eq : listMin (groupIndices c6Doc c6Group) = 2 := by decide
  have hsd : splitDegree c6Doc c6Group = 2 := by
    rw [splitDegree_scaled]
    decide
  refine ⟨hsd, ?_⟩
  have h := c6_reflow_stops_at_convergence c6Doc c6Group 100 1
    (by decide) hsd (by rw [hmin_eq]; norm_num) (by norm_num) (by norm_num)
    (by intro m hm0 hm1; omega)
    (by rw [hmin_eq, splitDegree_scaled]; decide)
  rw [hmin_eq] at h
  exact h
